import Mathlib

/-!
# Verification of the alert CSV ledger (`src/utils/github.js`)

This file shallowly embeds the append-only alert ledger of the repository:
`appendAlertToCSV` (encode one record and conditionally PUT the grown CSV
document) and `fetchAlertsFromCSV` (fetch and decode the CSV document into
alert objects).  Text is modelled as `List Char` so that the character-level
scanning loop of the decoder can be reasoned about directly; the base64
transport layer (`btoa`/`atob` with the UTF-8 shims), which is a pair of
mutually inverse re-codings applied at the network boundary, is not modelled:
document contents are carried as plain text.

Definitions are translated from `src/src/utils/github.js`; the remote content
host (GitHub's conditional PUT) is an external collaborator and is modelled
from the spec's description of the content-host protocol (spec §4.2 and §6).
-/

namespace AlertsCSV

/-- Text is a list of characters, as scanned by the JS decoder. -/
abbrev Str := List Char

/-- Coerce a Lean string literal to the character-list representation. -/
def chars (s : String) : Str := s.toList

/-- The whitespace characters relevant to JS `trim` / `\s` for this data
(ASCII whitespace; the CSV layer never produces other Unicode spacing). -/
def isWS (c : Char) : Bool := c == ' ' || c == '\t' || c == '\n' || c == '\r'

/-- JS `String.prototype.trim`: drop whitespace from both ends. -/
def jsTrim (s : Str) : Str := ((s.dropWhile isWS).reverse.dropWhile isWS).reverse

/-- JS `String.prototype.split(sep)` for a single-character separator. -/
def jsSplit (sep : Char) : Str → List Str
  | [] => [[]]
  | c :: rest =>
    if c = sep then [] :: jsSplit sep rest
    else
      match jsSplit sep rest with
      | t :: ts => (c :: t) :: ts
      | [] => [[c]]

/-- One step of JS `replace(/^"|"$/g, '')`: drop a single leading `"`. -/
def dropLeadQuote (s : Str) : Str :=
  match s with
  | c :: r => if c = '"' then r else s
  | [] => []

/-- JS `value.replace(/^"|"$/g, '')` (github.js line 253): strip at most one
leading and at most one trailing double quote. -/
def stripQuotes (s : Str) : Str :=
  (dropLeadQuote (dropLeadQuote s).reverse).reverse

/-- JS `value.replace(/""/g, '"')` (github.js line 254): collapse doubled
quotes left to right, non-overlapping. -/
def unescapeQuotes : Str → Str
  | [] => []
  | [c] => [c]
  | c :: c2 :: r2 =>
    if c = '"' then
      if c2 = '"' then '"' :: unescapeQuotes r2 else c :: unescapeQuotes (c2 :: r2)
    else c :: unescapeQuotes (c2 :: r2)

/-- JS `description.replace(/"/g, '""')` (github.js line 158): double every
double-quote character. -/
def escQ : Str → Str
  | [] => []
  | c :: r => if c = '"' then '"' :: '"' :: escQ r else c :: escQ r

/-! ## The record written by `appendAlertToCSV` -/

/-- The alert data passed to `appendAlertToCSV` (github.js lines 155-162):
six text fields plus the boolean `verified`. -/
structure AlertData where
  location : Str
  severity : Str
  description : Str
  contactInfo : Str
  timestamp : Str
  status : Str
  verified : Bool
deriving DecidableEq, Repr

/-- JS `alertData.status || 'pending'` (github.js line 161). -/
def statusOr (s : Str) : Str := if s = [] then chars "pending" else s

/-- JS template rendering of `alertData.verified || false` (github.js 162). -/
def boolStr (b : Bool) : Str := if b then chars "true" else chars "false"

/-- Wrap a field value in double quotes, as every entry of the `newRow`
array literal does (github.js lines 156-162). -/
def q (s : Str) : Str := '"' :: (s ++ ['"'])

/-- The seven field values of the row array built at github.js lines 155-162,
in order.  Only the description is quote-escaped; `contactInfo || ''` is the
identity on strings. -/
def fieldVals (a : AlertData) : List Str :=
  [a.location, a.severity, escQ a.description, a.contactInfo, a.timestamp,
   statusOr a.status, boolStr a.verified]

/-- JS `Array.prototype.join(',')`. -/
def joinC : List Str → Str
  | [] => []
  | [f] => f
  | f :: rest => f ++ ',' :: joinC rest

/-- The joined row before the trailing newline (github.js line 163). -/
def rowBody (a : AlertData) : Str := joinC ((fieldVals a).map q)

/-- `newRow` of github.js lines 155-163: the joined quoted fields plus `'\n'`. -/
def encodeRow (a : AlertData) : Str := rowBody a ++ ['\n']

/-- The header line created when the initial fetch throws
(github.js line 151), without its trailing newline. -/
def headerStr : String :=
  "Location,Severity,Description,Contact Info,Timestamp,Status,Verified"

/-- The document obtained by creating the header (github.js line 151) and
then appending each record's `newRow` in order (github.js line 165): this is
the encoded form of a record sequence. -/
def encodeDoc (rs : List AlertData) : Str :=
  chars headerStr ++ '\n' :: (rs.map encodeRow).flatten

/-! ## The decoder of `fetchAlertsFromCSV` -/

/-- The quote-aware character scan of one data line (github.js lines 228-248):
state `(current, inQuotes)`; a `"` inside quotes followed by another `"` is
consumed as a literal quote; an unquoted `"` toggles the flag; an unquoted `,`
pushes the trimmed current field; everything else is buffered.  The final
field is pushed trimmed at end of line. -/
def scanAux : Str → Str → Bool → List Str
  | [], cur, _ => [jsTrim cur]
  | [c], cur, inQ =>
    if c = '"' then [jsTrim cur]
    else if c = ',' ∧ inQ = false then [jsTrim cur, []]
    else [jsTrim (cur ++ [c])]
  | c :: c2 :: rest, cur, inQ =>
    if c = '"' then
      if inQ then
        if c2 = '"' then scanAux rest (cur ++ ['"']) true
        else scanAux (c2 :: rest) cur false
      else scanAux (c2 :: rest) cur true
    else if c = ',' ∧ inQ = false then jsTrim cur :: scanAux (c2 :: rest) [] false
    else scanAux (c2 :: rest) (cur ++ [c]) inQ

/-- The per-value post-processing of github.js lines 253-254: strip one
surrounding quote pair, then unescape doubled quotes. -/
def postField (s : Str) : Str := unescapeQuotes (stripQuotes s)

/-- A JS value stored in an alert object: string, boolean, or number. -/
inductive Val where
  | str (s : Str)
  | bool (b : Bool)
  | nat (n : Nat)
deriving DecidableEq, Repr

/-- A JS object, as an insertion-ordered association list. -/
abbrev Obj := List (Str × Val)

/-- JS property assignment `o[k] = v`: overwrite in place if the key exists,
otherwise append. -/
def objSet (o : Obj) (k : Str) (v : Val) : Obj :=
  if o.any (fun p => p.1 == k) then
    o.map (fun p => if p.1 == k then (k, v) else p)
  else o ++ [(k, v)]

/-- JS property read `o[k]`, `none` for `undefined`. -/
def objGet (o : Obj) (k : Str) : Option Val :=
  (o.find? (fun p => p.1 == k)).map (·.2)

/-- JS truthiness of a possibly-undefined value, as used by
`alert.contactinfo ? … : …` and `alert.status || 'pending'`. -/
def truthy : Option Val → Bool
  | some (.str s) => !s.isEmpty
  | some (.bool b) => b
  | some (.nat n) => n != 0
  | none => false

/-- JS `header.toLowerCase().replace(/\s+/g, '')` (github.js line 262). -/
def fieldKey (h : Str) : Str := (h.map Char.toLower).filter (fun c => !isWS c)

/-- One iteration of the `headers.forEach` loop of github.js lines 252-264:
post-process the positional value and store it under the key derived from the
header name, with the `Verified` and `Timestamp` special cases. -/
def buildStep (values : List Str) (obj : Obj) (p : Nat × Str) : Obj :=
  let header := p.2
  let value := postField (values.getD p.1 [])
  if header = chars "Verified" then
    objSet obj (header.map Char.toLower) (.bool (value == chars "true"))
  else if header = chars "Timestamp" then
    objSet obj (chars "timestamp") (.str value)
  else
    objSet obj (fieldKey header) (.str value)

/-- Build one alert object from the parsed values (github.js lines 251-269):
map each header positionally onto a key, then add `id`, `reportedBy`, and
default `status`. -/
def buildAlert (headers : List Str) (values : List Str) (i : Nat) : Obj :=
  let base := headers.enum.foldl (buildStep values) []
  let a1 := objSet base (chars "id") (.nat i)
  let a2 := objSet a1 (chars "reportedBy")
    (.str (if truthy (objGet a1 (chars "contactinfo")) then chars "Community Member"
           else chars "Anonymous"))
  objSet a2 (chars "status")
    (match objGet a2 (chars "status") with
     | some v => if truthy (some v) then v else .str (chars "pending")
     | none => .str (chars "pending"))

/-- The data-line loop of github.js lines 227-273: scan each line, keep it
only when its field count matches the header's, numbering lines from 1. -/
def parseRows (headers : List Str) (i : Nat) : List Str → List Obj
  | [] => []
  | line :: rest =>
    let values := scanAux line [] false
    if values.length = headers.length then
      buildAlert headers values i :: parseRows headers (i + 1) rest
    else parseRows headers (i + 1) rest

/-- The CSV parsing of github.js lines 212-275: empty or header-only text
decodes to no alerts; otherwise split into lines, parse the header names
(trimmed, surrounding quotes stripped), and run the data-line loop. -/
def parseAlerts (csvText : Str) : List Obj :=
  if jsTrim csvText = [] then []
  else
    let lines := jsSplit '\n' (jsTrim csvText)
    if lines.length < 2 then []
    else
      let headers := (jsSplit ',' (lines.headD [])).map (fun h => stripQuotes (jsTrim h))
      parseRows headers 1 lines.tail

/-- The observable outcome of the initial `fetch` in `fetchAlertsFromCSV`:
a successful response carrying the document text, a non-ok response
(e.g. 404 for a missing document), or a thrown network error. -/
inductive FetchOutcome where
  | ok (text : Str)
  | notOk
  | threw (msg : Str)
deriving DecidableEq, Repr

/-- The body of `fetchAlertsFromCSV`'s `try` block (github.js lines 204-275):
a thrown fetch escapes as an error; a non-ok response returns `[]`; a good
response is parsed. -/
def fetchAlertsBody : FetchOutcome → Except Str (List Obj)
  | .threw m => .error m
  | .notOk => .ok []
  | .ok t => .ok (parseAlerts t)

/-- `fetchAlertsFromCSV` (github.js lines 202-280): the catch handler logs the
error to the console and returns `[]`, so the function never raises.  The
second component is the list of console messages emitted. -/
def fetchAlertsFromCSV (o : FetchOutcome) : Except Str (List Obj) × List Str :=
  match fetchAlertsBody o with
  | .ok l => (.ok l, [])
  | .error e => (.ok [], [e])

/-- Equality of fallible results is decidable, so concrete runs of the
embedded functions can be checked by evaluation. -/
instance {ε : Type u} {α : Type v} [DecidableEq ε] [DecidableEq α] : DecidableEq (Except ε α) :=
  fun a b =>
  match a, b with
  | .ok x, .ok y =>
    if h : x = y then isTrue (by rw [h]) else isFalse (by intro hc; cases hc; exact h rfl)
  | .error x, .error y =>
    if h : x = y then isTrue (by rw [h]) else isFalse (by intro hc; cases hc; exact h rfl)
  | .ok _, .error _ => isFalse (by intro hc; cases hc)
  | .error _, .ok _ => isFalse (by intro hc; cases hc)

/-- Pin the product instance for the result type of `fetchAlertsFromCSV`. -/
instance : DecidableEq (Except Str (List Obj) × List Str) := instDecidableEqProd

/-! ## The append path of `appendAlertToCSV` -/

/-- The observable outcome of the initial GET in `appendAlertToCSV`
(github.js lines 133-152): an ok response carrying the decoded document text
and its sha, a non-ok response (404 for a missing document leaves
`csvContent = ''` and `sha = null`), or a thrown network error (the catch at
line 149 creates the header). -/
inductive AppendFetch where
  | ok (content : Str) (sha : Nat)
  | notOk
  | threw
deriving DecidableEq, Repr

/-- A stored document on the remote host: its text and the version token
(sha) identifying that exact content. -/
structure Store where
  content : Str
  sha : Nat
deriving DecidableEq, Repr

/-- The message of the error thrown when the token is missing
(github.js line 125). -/
def notConfiguredMsg : Str :=
  chars "GitHub token not configured. Please set VITE_GITHUB_TOKEN environment variable."

/-- The host's message for a rejected conditional write, surfaced by the
throw at github.js line 188. -/
def conflictMsg : Str := chars "Conflict"

/-- The content and sha assembled by github.js lines 130-165: the fetched
text (ok), the untouched empty string (non-ok response), or the freshly
created header (thrown fetch), with `newRow` appended. -/
def buildContent (fr : AppendFetch) (a : AlertData) : Str × Option Nat :=
  match fr with
  | .ok c sha => (c ++ encodeRow a, some sha)
  | .notOk => (encodeRow a, none)
  | .threw => (chars headerStr ++ '\n' :: encodeRow a, none)

/-- Modelled from the spec: the content host's conditional PUT (spec §4.2 and
§6), which is an external collaborator not present in the repository.  With a
token, the write succeeds only against the matching stored version and yields
a fresh token; a stale or missing match is a conflict; with no token the
write creates the document only if absent. -/
def putFile (remote : Option Store) (content : Str) (sha? : Option Nat) :
    Except Str Store :=
  match sha?, remote with
  | some s, some st => if s = st.sha then .ok ⟨content, st.sha + 1⟩ else .error conflictMsg
  | some _, none => .error conflictMsg
  | none, some _ => .error conflictMsg
  | none, none => .ok ⟨content, 0⟩

/-- `appendAlertToCSV` for a given fetch outcome (github.js lines 121-196):
the missing-token check precedes everything; otherwise the new content is
built and conditionally PUT against the store as it is at write time.  A
non-ok PUT response is thrown (line 188) and rethrown by the catch
(line 194), so the error reaches the caller; there is no retry. -/
def appendWithFetch (token : Str) (fr : AppendFetch) (atWrite : Option Store)
    (a : AlertData) : Except Str Store :=
  if token = [] then .error notConfiguredMsg
  else
    let bc := buildContent fr a
    putFile atWrite bc.1 bc.2

/-- What the initial GET of `appendAlertToCSV` reports for a given remote
state: the stored content and sha, or a 404 (non-ok) when absent. -/
def fetchResultOf : Option Store → AppendFetch
  | some st => .ok st.content st.sha
  | none => .notOk

/-- `appendAlertToCSV`, parameterised by the remote state seen by its GET and
the (possibly different, under concurrency) remote state its PUT runs
against. -/
def appendAlertToCSV (token : Str) (fetched : Option Store)
    (atWrite : Option Store) (a : AlertData) : Except Str Store :=
  appendWithFetch token (fetchResultOf fetched) atWrite a

/-! ## Comparing decoded alerts with records -/

/-- Project a decoded alert object back onto the record schema: the seven
schema fields, read off the object.  This is the sense in which decoded
output is compared with the records fed to the encoder. -/
def recOfObj (o : Obj) : Option AlertData :=
  match objGet o (chars "location"), objGet o (chars "severity"),
        objGet o (chars "description"), objGet o (chars "contactinfo"),
        objGet o (chars "timestamp"), objGet o (chars "status"),
        objGet o (chars "verified") with
  | some (.str l), some (.str sv), some (.str d), some (.str ci),
    some (.str ts), some (.str st), some (.bool v) =>
      some ⟨l, sv, d, ci, ts, st, v⟩
  | _, _, _, _, _, _, _ => none

/-- Project a whole decoded alert list onto the record schema; `none` as soon
as one alert does not carry all seven schema fields. -/
def recsOfAlerts : List Obj → Option (List AlertData)
  | [] => some []
  | o :: rest =>
    match recOfObj o, recsOfAlerts rest with
    | some r, some rs => some (r :: rs)
    | _, _ => none

/-- The record as the encoder persists it: other fields unchanged, the
status defaulted to `"pending"` when empty. -/
def normalizeRec (r : AlertData) : AlertData :=
  ⟨r.location, r.severity, r.description, r.contactInfo, r.timestamp,
   statusOr r.status, r.verified⟩

/-- The alert object that decoding the encoding of record `r` from row
number `i` produces. -/
def expectedAlert (i : Nat) (r : AlertData) : Obj :=
  [(chars "location", .str r.location),
   (chars "severity", .str r.severity),
   (chars "description", .str r.description),
   (chars "contactinfo", .str r.contactInfo),
   (chars "timestamp", .str r.timestamp),
   (chars "status", .str (statusOr r.status)),
   (chars "verified", .bool r.verified),
   (chars "id", .nat i),
   (chars "reportedBy",
    .str (cond r.contactInfo.isEmpty (chars "Anonymous") (chars "Community Member")))]

/-- The expected decoded alert list for a record sequence, numbering rows
from `i`. -/
def expectedFrom (i : Nat) : List AlertData → List Obj
  | [] => []
  | r :: rs => expectedAlert i r :: expectedFrom (i + 1) rs

/-- A field value that survives the codec unchanged: no double quote, no
newline, and invariant under trimming. -/
def goodField (f : Str) : Prop := '"' ∉ f ∧ '\n' ∉ f ∧ jsTrim f = f

instance (f : Str) : Decidable (goodField f) := by
  unfold goodField; infer_instance

/-- A record all of whose text fields survive the codec unchanged. -/
def goodRec (r : AlertData) : Prop :=
  goodField r.location ∧ goodField r.severity ∧ goodField r.description ∧
  goodField r.contactInfo ∧ goodField r.timestamp ∧ goodField r.status

instance (r : AlertData) : Decidable (goodRec r) := by
  unfold goodRec; infer_instance

/-- No text field of the record contains a newline character. -/
def noNewlineRec (r : AlertData) : Prop :=
  '\n' ∉ r.location ∧ '\n' ∉ r.severity ∧ '\n' ∉ r.description ∧
  '\n' ∉ r.contactInfo ∧ '\n' ∉ r.timestamp ∧ '\n' ∉ r.status

instance (r : AlertData) : Decidable (noNewlineRec r) := by
  unfold noNewlineRec; infer_instance

/-! ## Identity lemmas for quote-free values -/

lemma escQ_of_not_mem {s : Str} (h : '"' ∉ s) : escQ s = s := by
  induction s with
  | nil => rfl
  | cons c r ih =>
    have hc : c ≠ '"' := fun hc => h (hc ▸ List.mem_cons_self c r)
    simp [escQ, hc, ih (fun hm => h (List.mem_cons_of_mem c hm))]

lemma unescapeQuotes_of_not_mem {s : Str} (h : '"' ∉ s) : unescapeQuotes s = s := by
  induction s with
  | nil => rfl
  | cons c r ih =>
    have hc : c ≠ '"' := fun hc => h (hc ▸ List.mem_cons_self c r)
    cases r with
    | nil => rfl
    | cons c2 r2 =>
      simp only [unescapeQuotes, if_neg hc]
      exact congrArg (c :: ·) (ih (fun hm => h (List.mem_cons_of_mem c hm)))

lemma dropLeadQuote_of_head {s : Str} (h : s.head? ≠ some '"') : dropLeadQuote s = s := by
  cases s with
  | nil => rfl
  | cons c r =>
    have : c ≠ '"' := fun hc => h (by simp [hc])
    simp [dropLeadQuote, this]

lemma stripQuotes_of_not_mem {s : Str} (h : '"' ∉ s) : stripQuotes s = s := by
  have h1 : dropLeadQuote s = s := by
    apply dropLeadQuote_of_head
    cases s with
    | nil => simp
    | cons c r =>
      have : c ≠ '"' := fun hc => h (hc ▸ List.mem_cons_self c r)
      simp [this]
  have h2 : dropLeadQuote s.reverse = s.reverse := by
    apply dropLeadQuote_of_head
    cases hr : s.reverse with
    | nil => simp
    | cons c r =>
      have hm : c ∈ s := by
        have : c ∈ s.reverse := by rw [hr]; exact List.mem_cons_self c r
        simpa using this
      have : c ≠ '"' := fun hc => h (hc ▸ hm)
      simp [this]
  unfold stripQuotes
  rw [h1, h2, List.reverse_reverse]

lemma postField_of_not_mem {s : Str} (h : '"' ∉ s) : postField s = s := by
  unfold postField
  rw [stripQuotes_of_not_mem h, unescapeQuotes_of_not_mem h]

/-! ## Behaviour of the character scan on encoded rows -/

lemma scanAux_open (xs cur : Str) : scanAux ('"' :: xs) cur false = scanAux xs cur true := by
  cases xs with
  | nil => rfl
  | cons c2 rest => simp [scanAux]

lemma scanAux_comma (xs cur : Str) :
    scanAux (',' :: xs) cur false = jsTrim cur :: scanAux xs [] false := by
  cases xs with
  | nil => simp [scanAux, jsTrim]
  | cons c2 rest => simp [scanAux]

lemma scanAux_cons_ne (c : Char) (xs cur : Str) (hc : c ≠ '"') (hxs : xs ≠ []) :
    scanAux (c :: xs) cur true = scanAux xs (cur ++ [c]) true := by
  match xs, hxs with
  | c2 :: rest, _ => simp [scanAux, hc]

lemma scanAux_field (v : Str) (hv : '"' ∉ v) :
    ∀ (cur rest : Str), rest.head? ≠ some '"' →
      scanAux (v ++ '"' :: rest) cur true = scanAux rest (cur ++ v) false := by
  induction v with
  | nil =>
    intro cur rest hrest
    cases rest with
    | nil => simp [scanAux]
    | cons r1 rs =>
      have : r1 ≠ '"' := fun hr => hrest (by simp [hr])
      simp [scanAux, this]
  | cons a v' ih =>
    intro cur rest hrest
    have ha : a ≠ '"' := fun hc => hv (hc ▸ List.mem_cons_self a v')
    have hne : v' ++ '"' :: rest ≠ [] := by simp
    rw [List.cons_append, scanAux_cons_ne a _ cur ha hne,
      ih (fun hm => hv (List.mem_cons_of_mem a hm)) (cur ++ [a]) rest hrest]
    simp

lemma joinC_cons (x : Str) (ys : List Str) (h : ys ≠ []) :
    joinC (x :: ys) = x ++ ',' :: joinC ys := by
  match ys, h with
  | y :: ys', _ => rfl

lemma scan_fields : ∀ (fs : List Str), fs ≠ [] → (∀ f ∈ fs, '"' ∉ f) →
    scanAux (joinC (fs.map q)) [] false = fs.map jsTrim := by
  intro fs
  induction fs with
  | nil => intro h; exact absurd rfl h
  | cons f fs' ih =>
    intro _ hq
    have hf : '"' ∉ f := hq f (List.mem_cons_self f fs')
    cases fs' with
    | nil =>
      show scanAux (joinC [q f]) [] false = [jsTrim f]
      have : joinC [q f] = '"' :: (f ++ '"' :: []) := by simp [joinC, q]
      rw [this, scanAux_open, scanAux_field f hf [] [] (by simp)]
      rfl
    | cons g gs =>
      have hne : (g :: gs).map q ≠ [] := by simp
      have step : joinC ((f :: g :: gs).map q) =
          '"' :: (f ++ '"' :: ',' :: joinC ((g :: gs).map q)) := by
        rw [List.map_cons, joinC_cons _ _ hne]
        simp [q]
      rw [step, scanAux_open,
        scanAux_field f hf [] (',' :: joinC ((g :: gs).map q)) (by simp),
        scanAux_comma]
      simp only [List.nil_append]
      rw [ih (by simp) (fun x hx => hq x (List.mem_cons_of_mem f hx))]
      rfl

/-! ## Splitting and trimming the encoded document -/

lemma jsSplit_no_sep (sep : Char) : ∀ (a : Str), sep ∉ a → jsSplit sep a = [a] := by
  intro a
  induction a with
  | nil => intro _; rfl
  | cons c a' ih =>
    intro h
    have hc : c ≠ sep := fun hc => h (hc ▸ List.mem_cons_self c a')
    simp only [jsSplit, if_neg hc, ih (fun hm => h (List.mem_cons_of_mem c hm))]

lemma jsSplit_append (sep : Char) : ∀ (a b : Str), sep ∉ a →
    jsSplit sep (a ++ sep :: b) = a :: jsSplit sep b := by
  intro a b
  induction a with
  | nil => intro _; simp [jsSplit]
  | cons c a' ih =>
    intro h
    have hc : c ≠ sep := fun hc => h (hc ▸ List.mem_cons_self c a')
    simp only [List.cons_append, jsSplit, if_neg hc, List.append_eq]
    rw [ih (fun hm => h (List.mem_cons_of_mem c hm))]

lemma jsTrim_append_newline {s : Str} {c d : Char} (hh : s.head? = some c)
    (hc : isWS c = false) (hl : s.getLast? = some d) (hd : isWS d = false) :
    jsTrim (s ++ ['\n']) = s := by
  obtain ⟨s', rfl⟩ : ∃ s', s = c :: s' := by
    cases s with
    | nil => simp at hh
    | cons x xs =>
      simp only [List.head?_cons, Option.some.injEq] at hh
      exact ⟨xs, by rw [hh]⟩
  unfold jsTrim
  rw [List.cons_append, List.dropWhile_cons, if_neg (by simp [hc])]
  rw [show (c :: (s' ++ ['\n'])).reverse = '\n' :: (c :: s').reverse by
    simp]
  rw [List.dropWhile_cons, if_pos (by simp [isWS])]
  obtain ⟨t, ht⟩ : ∃ t, (c :: s').reverse = d :: t := by
    have : (c :: s').reverse.head? = some d := by
      rw [List.head?_reverse]; exact hl
    cases hrev : (c :: s').reverse with
    | nil => rw [hrev] at this; simp at this
    | cons x xs => rw [hrev] at this; simp at this; exact ⟨xs, by rw [this]⟩
  rw [ht, List.dropWhile_cons, if_neg (by simp [hd]), ← ht, List.reverse_reverse]

/-! ## The shape of a document built from appended rows -/

/-- Joining lines the way the rows of an encoded document sit between the
newline characters. -/
def joinN : List Str → Str
  | [] => []
  | [b] => b
  | b :: b2 :: rest => b ++ '\n' :: joinN (b2 :: rest)

lemma joinN_cons (b : Str) (bs : List Str) (h : bs ≠ []) :
    joinN (b :: bs) = b ++ '\n' :: joinN bs := by
  match bs, h with
  | b2 :: rest, _ => rfl

lemma flatten_map_encodeRow : ∀ (rs : List AlertData), rs ≠ [] →
    (rs.map encodeRow).flatten = joinN (rs.map rowBody) ++ ['\n'] := by
  intro rs
  induction rs with
  | nil => intro h; exact absurd rfl h
  | cons r rs' ih =>
    intro _
    cases rs' with
    | nil => simp [encodeRow, joinN]
    | cons r2 rest =>
      rw [List.map_cons, List.flatten_cons, ih (by simp),
        show List.map rowBody (r :: r2 :: rest) =
          rowBody r :: List.map rowBody (r2 :: rest) from rfl,
        joinN_cons _ _ (by simp)]
      simp [encodeRow, List.append_assoc]

lemma jsSplit_joinN : ∀ (bs : List Str), bs ≠ [] → (∀ b ∈ bs, '\n' ∉ b) →
    jsSplit '\n' (joinN bs) = bs := by
  intro bs
  induction bs with
  | nil => intro h; exact absurd rfl h
  | cons b bs' ih =>
    intro _ hmem
    cases bs' with
    | nil => exact jsSplit_no_sep '\n' b (hmem b (List.mem_cons_self b []))
    | cons b2 rest =>
      rw [joinN_cons _ _ (by simp),
        jsSplit_append '\n' b _ (hmem b (List.mem_cons_self b _)),
        ih (by simp) (fun x hx => hmem x (List.mem_cons_of_mem b hx))]

lemma joinC_q_head : ∀ (fs : List Str) (f : Str),
    (joinC ((f :: fs).map q)).head? = some '"' := by
  intro fs f
  cases fs with
  | nil => rfl
  | cons g gs => rfl

lemma joinC_q_ne_nil (fs : List Str) (f : Str) : joinC ((f :: fs).map q) ≠ [] := by
  intro h
  have := joinC_q_head fs f
  rw [h] at this
  simp at this

lemma joinC_q_getLast : ∀ (fs : List Str) (f : Str),
    (joinC ((f :: fs).map q)).getLast? = some '"' := by
  intro fs
  induction fs with
  | nil =>
    intro f
    show (q f).getLast? = some '"'
    rw [show q f = ('"' :: f) ++ ['"'] by simp [q]]
    exact List.getLast?_concat _
  | cons g gs ih =>
    intro f
    have h1 : joinC (List.map q (f :: g :: gs)) =
        (q f ++ [',']) ++ joinC (List.map q (g :: gs)) := by
      rw [show List.map q (f :: g :: gs) = q f :: List.map q (g :: gs) from rfl,
        joinC_cons _ _ (by simp)]
      simp
    rw [h1, List.getLast?_append, ih g]
    rfl

lemma mem_joinC_q : ∀ (fs : List Str) (c : Char), c ∈ joinC (fs.map q) →
    c = ',' ∨ c = '"' ∨ ∃ f ∈ fs, c ∈ f := by
  intro fs
  induction fs with
  | nil => intro c hc; simp [joinC] at hc
  | cons f fs' ih =>
    intro c hc
    cases fs' with
    | nil =>
      simp only [List.map_cons, List.map_nil, joinC, q] at hc
      rcases List.mem_cons.mp hc with h | h
      · exact Or.inr (Or.inl h)
      · rcases List.mem_append.mp h with h | h
        · exact Or.inr (Or.inr ⟨f, by simp, h⟩)
        · simp at h; exact Or.inr (Or.inl h)
    | cons g gs =>
      rw [List.map_cons, joinC_cons _ _ (by simp)] at hc
      rcases List.mem_append.mp hc with h | h
      · simp only [q] at h
        rcases List.mem_cons.mp h with h | h
        · exact Or.inr (Or.inl h)
        · rcases List.mem_append.mp h with h | h
          · exact Or.inr (Or.inr ⟨f, by simp, h⟩)
          · simp at h; exact Or.inr (Or.inl h)
      · rcases List.mem_cons.mp h with h | h
        · exact Or.inl h
        · rcases ih c h with h | h | ⟨x, hx, hcx⟩
          · exact Or.inl h
          · exact Or.inr (Or.inl h)
          · exact Or.inr (Or.inr ⟨x, List.mem_cons_of_mem f hx, hcx⟩)

/-! ## Field values of a well-behaved record -/

lemma fieldVals_good {r : AlertData} (h : goodRec r) : ∀ f ∈ fieldVals r, goodField f := by
  obtain ⟨h1, h2, h3, h4, h5, h6⟩ := h
  intro f hf
  simp only [fieldVals, List.mem_cons, List.not_mem_nil, or_false] at hf
  rcases hf with rfl | rfl | rfl | rfl | rfl | rfl | rfl
  · exact h1
  · exact h2
  · rw [escQ_of_not_mem h3.1]; exact h3
  · exact h4
  · exact h5
  · unfold statusOr
    by_cases hs : r.status = []
    · rw [if_pos hs]; decide
    · rw [if_neg hs]; exact h6
  · unfold boolStr
    cases r.verified <;> decide

lemma rowBody_eq (a : AlertData) : rowBody a = joinC ((fieldVals a).map q) := rfl

lemma rowBody_head? (a : AlertData) : (rowBody a).head? = some '"' :=
  joinC_q_head _ _

lemma rowBody_ne_nil (a : AlertData) : rowBody a ≠ [] := by
  intro h
  have := rowBody_head? a
  rw [h] at this
  simp at this

lemma rowBody_getLast? (a : AlertData) : (rowBody a).getLast? = some '"' :=
  joinC_q_getLast _ _

lemma rowBody_no_newline {a : AlertData} (h : goodRec a) : '\n' ∉ rowBody a := by
  intro hmem
  rcases mem_joinC_q _ _ hmem with hc | hc | ⟨f, hf, hcf⟩
  · exact absurd hc (by decide)
  · exact absurd hc (by decide)
  · exact (fieldVals_good h f hf).2.1 hcf

/-- The header names produced by parsing the standard header line. -/
def stdHeaders : List Str :=
  [chars "Location", chars "Severity", chars "Description", chars "Contact Info",
   chars "Timestamp", chars "Status", chars "Verified"]

lemma headers_eval :
    (jsSplit ',' (chars headerStr)).map (fun h => stripQuotes (jsTrim h)) = stdHeaders := by
  decide

lemma scan_rowBody {r : AlertData} (h : goodRec r) :
    scanAux (rowBody r) [] false = fieldVals r := by
  rw [rowBody_eq, scan_fields (fieldVals r) (by simp [fieldVals])
    (fun f hf => (fieldVals_good h f hf).1)]
  exact List.map_congr_left (fun f hf => (fieldVals_good h f hf).2.2)

lemma mem_escQ {c : Char} : ∀ {s : Str}, c ∈ escQ s → c ∈ s ∨ c = '"' := by
  intro s
  induction s with
  | nil => intro h; simp [escQ] at h
  | cons a r ih =>
    intro h
    by_cases ha : a = '"'
    · rw [escQ, if_pos ha] at h
      rcases List.mem_cons.mp h with h | h
      · exact Or.inr h
      · rcases List.mem_cons.mp h with h | h
        · exact Or.inr h
        · rcases ih h with h | h
          · exact Or.inl (List.mem_cons_of_mem a h)
          · exact Or.inr h
    · rw [escQ, if_neg ha] at h
      rcases List.mem_cons.mp h with h | h
      · exact Or.inl (h ▸ List.mem_cons_self a r)
      · rcases ih h with h | h
        · exact Or.inl (List.mem_cons_of_mem a h)
        · exact Or.inr h

lemma fieldVals_no_newline {a : AlertData} (h : noNewlineRec a) :
    ∀ f ∈ fieldVals a, '\n' ∉ f := by
  obtain ⟨h1, h2, h3, h4, h5, h6⟩ := h
  intro f hf
  simp only [fieldVals, List.mem_cons, List.not_mem_nil, or_false] at hf
  rcases hf with rfl | rfl | rfl | rfl | rfl | rfl | rfl
  · exact h1
  · exact h2
  · intro hm
    rcases mem_escQ hm with hm | hm
    · exact h3 hm
    · exact absurd hm (by decide)
  · exact h4
  · exact h5
  · intro hm
    unfold statusOr at hm
    by_cases hs : a.status = []
    · rw [if_pos hs] at hm; exact absurd hm (by decide)
    · rw [if_neg hs] at hm; exact h6 hm
  · intro hm
    cases hv : a.verified <;> simp [boolStr, hv, chars] at hm

lemma rowBody_no_newline2 {a : AlertData} (h : noNewlineRec a) : '\n' ∉ rowBody a := by
  intro hmem
  rcases mem_joinC_q _ _ hmem with hc | hc | ⟨f, hf, hcf⟩
  · exact absurd hc (by decide)
  · exact absurd hc (by decide)
  · exact fieldVals_no_newline h f hf hcf

/-! ## Length facts about the decoder's field post-processing -/

lemma unescape_length_le : ∀ (s : Str), (unescapeQuotes s).length ≤ s.length := by
  intro s
  induction s using unescapeQuotes.induct with
  | case1 => simp [unescapeQuotes]
  | case2 c => simp [unescapeQuotes]
  | case3 r2 ih =>
    rw [show unescapeQuotes ('"' :: '"' :: r2) = '"' :: unescapeQuotes r2 from rfl]
    simp only [List.length_cons]
    omega
  | case4 c2 r2 hc2 ih =>
    rw [show unescapeQuotes ('"' :: c2 :: r2) = '"' :: unescapeQuotes (c2 :: r2) by
      rw [unescapeQuotes]; simp [hc2]]
    simp only [List.length_cons] at ih ⊢
    omega
  | case5 c c2 r2 hc ih =>
    rw [show unescapeQuotes (c :: c2 :: r2) = c :: unescapeQuotes (c2 :: r2) by
      rw [unescapeQuotes]; simp [hc]]
    simp only [List.length_cons] at ih ⊢
    omega

lemma dropLeadQuote_length_le (s : Str) : (dropLeadQuote s).length ≤ s.length := by
  cases s with
  | nil => simp [dropLeadQuote]
  | cons c r =>
    by_cases hc : c = '"'
    · simp [dropLeadQuote, hc]
    · simp [dropLeadQuote, hc]

lemma dropLeadQuote_length_lt {s : Str} (h : s.head? = some '"') :
    (dropLeadQuote s).length < s.length := by
  cases s with
  | nil => simp at h
  | cons c r =>
    simp only [List.head?_cons, Option.some.injEq] at h
    simp [dropLeadQuote, h]

lemma stripQuotes_length_lt {s : Str}
    (h : s.head? = some '"' ∨ s.getLast? = some '"') :
    (stripQuotes s).length < s.length := by
  rcases h with h | h
  · calc (stripQuotes s).length
        = (dropLeadQuote (dropLeadQuote s).reverse).length := by
          simp [stripQuotes]
      _ ≤ (dropLeadQuote s).reverse.length := dropLeadQuote_length_le _
      _ = (dropLeadQuote s).length := by simp
      _ < s.length := dropLeadQuote_length_lt h
  · by_cases hh : s.head? = some '"'
    · calc (stripQuotes s).length
          = (dropLeadQuote (dropLeadQuote s).reverse).length := by simp [stripQuotes]
        _ ≤ (dropLeadQuote s).reverse.length := dropLeadQuote_length_le _
        _ = (dropLeadQuote s).length := by simp
        _ < s.length := dropLeadQuote_length_lt hh
    · have hds : dropLeadQuote s = s := dropLeadQuote_of_head hh
      have hrev : s.reverse.head? = some '"' := by
        rw [List.head?_reverse]; exact h
      calc (stripQuotes s).length
          = (dropLeadQuote s.reverse).length := by simp [stripQuotes, hds]
        _ < s.reverse.length := dropLeadQuote_length_lt hrev
        _ = s.length := by simp

lemma postField_ne_of_edge {v : Str}
    (h : v.head? = some '"' ∨ v.getLast? = some '"') : postField v ≠ v := by
  intro he
  have h1 : (postField v).length ≤ (stripQuotes v).length := unescape_length_le _
  have h2 : (stripQuotes v).length < v.length := stripQuotes_length_lt h
  rw [he] at h1
  omega

/-- Whether the value contains two adjacent double-quote characters (the one
pattern the final unescaping step rewrites). -/
def hasAdjQ : Str → Bool
  | [] => false
  | [_] => false
  | c :: c2 :: r => (c == '"' && c2 == '"') || hasAdjQ (c2 :: r)

lemma unescape_of_no_adj : ∀ {s : Str}, hasAdjQ s = false → unescapeQuotes s = s := by
  intro s
  induction s using unescapeQuotes.induct with
  | case1 => intro _; rfl
  | case2 c => intro _; rfl
  | case3 r2 ih =>
    intro h
    simp [hasAdjQ] at h
  | case4 c2 r2 hc2 ih =>
    intro h
    rw [show unescapeQuotes ('"' :: c2 :: r2) = '"' :: unescapeQuotes (c2 :: r2) by
      rw [unescapeQuotes]; simp [hc2]]
    rw [ih (by simp [hasAdjQ] at h; exact h.2)]
  | case5 c c2 r2 hc ih =>
    intro h
    rw [show unescapeQuotes (c :: c2 :: r2) = c :: unescapeQuotes (c2 :: r2) by
      rw [unescapeQuotes]; simp [hc]]
    rw [ih (by simp [hasAdjQ] at h; exact h.2)]

lemma postField_of_plain {v : Str} (h1 : v.head? ≠ some '"')
    (h2 : v.getLast? ≠ some '"') (h3 : hasAdjQ v = false) : postField v = v := by
  unfold postField stripQuotes
  rw [dropLeadQuote_of_head h1]
  rw [dropLeadQuote_of_head (by rw [List.head?_reverse]; exact h2)]
  rw [List.reverse_reverse]
  exact unescape_of_no_adj h3

/-! ## Evaluating the object-building loop on the standard header -/

set_option maxHeartbeats 2000000 in
lemma buildAlert_std (v0 v1 v2 v3 v4 v5 v6 : Str) (i : Nat) :
    buildAlert stdHeaders [v0, v1, v2, v3, v4, v5, v6] i =
      [(chars "location", .str (postField v0)),
       (chars "severity", .str (postField v1)),
       (chars "description", .str (postField v2)),
       (chars "contactinfo", .str (postField v3)),
       (chars "timestamp", .str (postField v4)),
       (chars "status",
        if !(postField v5).isEmpty then Val.str (postField v5) else .str (chars "pending")),
       (chars "verified", .bool (postField v6 == chars "true")),
       (chars "id", .nat i),
       (chars "reportedBy",
        .str (if !(postField v3).isEmpty then chars "Community Member"
              else chars "Anonymous"))] := by
  have henum : stdHeaders.enum =
      [(0, chars "Location"), (1, chars "Severity"), (2, chars "Description"),
       (3, chars "Contact Info"), (4, chars "Timestamp"), (5, chars "Status"),
       (6, chars "Verified")] := by decide
  have e0 : buildStep [v0, v1, v2, v3, v4, v5, v6] [] (0, chars "Location") =
      [(chars "location", .str (postField v0))] := rfl
  have e1 : buildStep [v0, v1, v2, v3, v4, v5, v6]
      [(chars "location", .str (postField v0))] (1, chars "Severity") =
      [(chars "location", .str (postField v0)),
       (chars "severity", .str (postField v1))] := rfl
  have e2 : buildStep [v0, v1, v2, v3, v4, v5, v6]
      [(chars "location", .str (postField v0)),
       (chars "severity", .str (postField v1))] (2, chars "Description") =
      [(chars "location", .str (postField v0)),
       (chars "severity", .str (postField v1)),
       (chars "description", .str (postField v2))] := rfl
  have e3 : buildStep [v0, v1, v2, v3, v4, v5, v6]
      [(chars "location", .str (postField v0)),
       (chars "severity", .str (postField v1)),
       (chars "description", .str (postField v2))] (3, chars "Contact Info") =
      [(chars "location", .str (postField v0)),
       (chars "severity", .str (postField v1)),
       (chars "description", .str (postField v2)),
       (chars "contactinfo", .str (postField v3))] := rfl
  have e4 : buildStep [v0, v1, v2, v3, v4, v5, v6]
      [(chars "location", .str (postField v0)),
       (chars "severity", .str (postField v1)),
       (chars "description", .str (postField v2)),
       (chars "contactinfo", .str (postField v3))] (4, chars "Timestamp") =
      [(chars "location", .str (postField v0)),
       (chars "severity", .str (postField v1)),
       (chars "description", .str (postField v2)),
       (chars "contactinfo", .str (postField v3)),
       (chars "timestamp", .str (postField v4))] := rfl
  have e5 : buildStep [v0, v1, v2, v3, v4, v5, v6]
      [(chars "location", .str (postField v0)),
       (chars "severity", .str (postField v1)),
       (chars "description", .str (postField v2)),
       (chars "contactinfo", .str (postField v3)),
       (chars "timestamp", .str (postField v4))] (5, chars "Status") =
      [(chars "location", .str (postField v0)),
       (chars "severity", .str (postField v1)),
       (chars "description", .str (postField v2)),
       (chars "contactinfo", .str (postField v3)),
       (chars "timestamp", .str (postField v4)),
       (chars "status", .str (postField v5))] := rfl
  have e6 : buildStep [v0, v1, v2, v3, v4, v5, v6]
      [(chars "location", .str (postField v0)),
       (chars "severity", .str (postField v1)),
       (chars "description", .str (postField v2)),
       (chars "contactinfo", .str (postField v3)),
       (chars "timestamp", .str (postField v4)),
       (chars "status", .str (postField v5))] (6, chars "Verified") =
      [(chars "location", .str (postField v0)),
       (chars "severity", .str (postField v1)),
       (chars "description", .str (postField v2)),
       (chars "contactinfo", .str (postField v3)),
       (chars "timestamp", .str (postField v4)),
       (chars "status", .str (postField v5)),
       (chars "verified", .bool (postField v6 == chars "true"))] := rfl
  have e7 : objSet
      [(chars "location", Val.str (postField v0)),
       (chars "severity", Val.str (postField v1)),
       (chars "description", Val.str (postField v2)),
       (chars "contactinfo", Val.str (postField v3)),
       (chars "timestamp", Val.str (postField v4)),
       (chars "status", Val.str (postField v5)),
       (chars "verified", Val.bool (postField v6 == chars "true"))]
      (chars "id") (.nat i) =
      [(chars "location", Val.str (postField v0)),
       (chars "severity", Val.str (postField v1)),
       (chars "description", Val.str (postField v2)),
       (chars "contactinfo", Val.str (postField v3)),
       (chars "timestamp", Val.str (postField v4)),
       (chars "status", Val.str (postField v5)),
       (chars "verified", Val.bool (postField v6 == chars "true")),
       (chars "id", Val.nat i)] := rfl
  have g1 : objGet
      [(chars "location", Val.str (postField v0)),
       (chars "severity", Val.str (postField v1)),
       (chars "description", Val.str (postField v2)),
       (chars "contactinfo", Val.str (postField v3)),
       (chars "timestamp", Val.str (postField v4)),
       (chars "status", Val.str (postField v5)),
       (chars "verified", Val.bool (postField v6 == chars "true")),
       (chars "id", Val.nat i)] (chars "contactinfo") =
      some (Val.str (postField v3)) := rfl
  have e8 : ∀ w : Val, objSet
      [(chars "location", Val.str (postField v0)),
       (chars "severity", Val.str (postField v1)),
       (chars "description", Val.str (postField v2)),
       (chars "contactinfo", Val.str (postField v3)),
       (chars "timestamp", Val.str (postField v4)),
       (chars "status", Val.str (postField v5)),
       (chars "verified", Val.bool (postField v6 == chars "true")),
       (chars "id", Val.nat i)] (chars "reportedBy") w =
      [(chars "location", Val.str (postField v0)),
       (chars "severity", Val.str (postField v1)),
       (chars "description", Val.str (postField v2)),
       (chars "contactinfo", Val.str (postField v3)),
       (chars "timestamp", Val.str (postField v4)),
       (chars "status", Val.str (postField v5)),
       (chars "verified", Val.bool (postField v6 == chars "true")),
       (chars "id", Val.nat i),
       (chars "reportedBy", w)] := fun w => rfl
  have g2 : ∀ w : Val, objGet
      [(chars "location", Val.str (postField v0)),
       (chars "severity", Val.str (postField v1)),
       (chars "description", Val.str (postField v2)),
       (chars "contactinfo", Val.str (postField v3)),
       (chars "timestamp", Val.str (postField v4)),
       (chars "status", Val.str (postField v5)),
       (chars "verified", Val.bool (postField v6 == chars "true")),
       (chars "id", Val.nat i),
       (chars "reportedBy", w)] (chars "status") =
      some (Val.str (postField v5)) := fun w => rfl
  have e9 : ∀ w w2 : Val, objSet
      [(chars "location", Val.str (postField v0)),
       (chars "severity", Val.str (postField v1)),
       (chars "description", Val.str (postField v2)),
       (chars "contactinfo", Val.str (postField v3)),
       (chars "timestamp", Val.str (postField v4)),
       (chars "status", Val.str (postField v5)),
       (chars "verified", Val.bool (postField v6 == chars "true")),
       (chars "id", Val.nat i),
       (chars "reportedBy", w)] (chars "status") w2 =
      [(chars "location", Val.str (postField v0)),
       (chars "severity", Val.str (postField v1)),
       (chars "description", Val.str (postField v2)),
       (chars "contactinfo", Val.str (postField v3)),
       (chars "timestamp", Val.str (postField v4)),
       (chars "status", w2),
       (chars "verified", Val.bool (postField v6 == chars "true")),
       (chars "id", Val.nat i),
       (chars "reportedBy", w)] := fun w w2 => rfl
  simp only [buildAlert, henum, List.foldl_cons, List.foldl_nil, e0, e1, e2, e3,
    e4, e5, e6, e7, g1, e8, g2, e9, truthy]

/-! ## Decoding a document of well-behaved appended rows -/

lemma statusOr_isEmpty (s : Str) : (statusOr s).isEmpty = false := by
  unfold statusOr
  by_cases hs : s = []
  · rw [if_pos hs]; decide
  · rw [if_neg hs]; cases s with
    | nil => exact absurd rfl hs
    | cons c r => rfl

lemma statusOr_no_quote {s : Str} (h : '"' ∉ s) : '"' ∉ statusOr s := by
  unfold statusOr
  by_cases hs : s = []
  · rw [if_pos hs]; decide
  · rw [if_neg hs]; exact h

lemma boolStr_no_quote (b : Bool) : '"' ∉ boolStr b := by
  cases b <;> decide

lemma boolStr_beq_true (b : Bool) : (boolStr b == chars "true") = b := by
  cases b <;> decide

lemma buildAlert_good {r : AlertData} (h : goodRec r) (i : Nat) :
    buildAlert stdHeaders (fieldVals r) i = expectedAlert i r := by
  obtain ⟨h1, h2, h3, h4, h5, h6⟩ := h
  rw [show fieldVals r = [r.location, r.severity, escQ r.description, r.contactInfo,
      r.timestamp, statusOr r.status, boolStr r.verified] from rfl, buildAlert_std]
  rw [postField_of_not_mem h1.1, postField_of_not_mem h2.1,
    escQ_of_not_mem h3.1, postField_of_not_mem h3.1, postField_of_not_mem h4.1,
    postField_of_not_mem h5.1, postField_of_not_mem (statusOr_no_quote h6.1),
    postField_of_not_mem (boolStr_no_quote r.verified),
    statusOr_isEmpty, boolStr_beq_true]
  unfold expectedAlert
  cases hci : r.contactInfo.isEmpty <;> simp [hci]

lemma parseRows_good : ∀ (rs : List AlertData) (i : Nat), (∀ r ∈ rs, goodRec r) →
    parseRows stdHeaders i (rs.map rowBody) = expectedFrom i rs := by
  intro rs
  induction rs with
  | nil => intro i _; rfl
  | cons r rs' ih =>
    intro i h
    have hr := h r (List.mem_cons_self r rs')
    rw [List.map_cons]
    show parseRows stdHeaders i (rowBody r :: List.map rowBody rs') = _
    simp only [parseRows, scan_rowBody hr]
    rw [if_pos (show (fieldVals r).length = stdHeaders.length from rfl)]
    rw [buildAlert_good hr i, ih (i + 1) (fun x hx => h x (List.mem_cons_of_mem r hx))]
    rfl

lemma joinN_getLast : ∀ (bs : List Str), bs ≠ [] →
    (∀ b ∈ bs, b.getLast? = some '"') → (joinN bs).getLast? = some '"' := by
  intro bs
  induction bs with
  | nil => intro h; exact absurd rfl h
  | cons b bs' ih =>
    intro _ hmem
    cases bs' with
    | nil => exact hmem b (List.mem_cons_self b [])
    | cons b2 rest =>
      rw [joinN_cons _ _ (by simp),
        show b ++ '\n' :: joinN (b2 :: rest) = b ++ ['\n'] ++ joinN (b2 :: rest) by simp,
        List.getLast?_append,
        ih (by simp) (fun x hx => hmem x (List.mem_cons_of_mem b hx))]
      rfl

/-- The central correspondence: decoding the document built by appending a
sequence of well-behaved records reproduces, in order and with 1-based row
ids, exactly the expected alert objects. -/
theorem parse_encodeDoc (rs : List AlertData) (h : ∀ r ∈ rs, goodRec r) :
    parseAlerts (encodeDoc rs) = expectedFrom 1 rs := by
  cases rs with
  | nil => decide
  | cons r0 rs' =>
    have hgood : ∀ b ∈ (r0 :: rs').map rowBody, '\n' ∉ b := by
      intro b hb
      obtain ⟨r, hr, rfl⟩ := List.mem_map.mp hb
      exact rowBody_no_newline (h r hr)
    have hAhead : (chars headerStr ++ '\n' :: joinN ((r0 :: rs').map rowBody)).head? =
        some 'L' := rfl
    have hAlast : (chars headerStr ++ '\n' :: joinN ((r0 :: rs').map rowBody)).getLast? =
        some '"' := by
      rw [show chars headerStr ++ '\n' :: joinN ((r0 :: rs').map rowBody) =
          (chars headerStr ++ ['\n']) ++ joinN ((r0 :: rs').map rowBody) by simp,
        List.getLast?_append,
        joinN_getLast _ (by simp) (by
          intro b hb
          obtain ⟨r, hr, rfl⟩ := List.mem_map.mp hb
          exact rowBody_getLast? r)]
      rfl
    have henc : encodeDoc (r0 :: rs') =
        (chars headerStr ++ '\n' :: joinN ((r0 :: rs').map rowBody)) ++ ['\n'] := by
      unfold encodeDoc
      rw [flatten_map_encodeRow _ (by simp)]
      simp
    have htrim : jsTrim (encodeDoc (r0 :: rs')) =
        chars headerStr ++ '\n' :: joinN ((r0 :: rs').map rowBody) := by
      rw [henc]
      exact jsTrim_append_newline hAhead (by decide) hAlast (by decide)
    have hAne : chars headerStr ++ '\n' :: joinN ((r0 :: rs').map rowBody) ≠ [] := by
      intro hcon
      have := congrArg List.head? hcon
      rw [hAhead] at this
      simp at this
    have hlines : jsSplit '\n' (chars headerStr ++ '\n' :: joinN ((r0 :: rs').map rowBody)) =
        chars headerStr :: (r0 :: rs').map rowBody := by
      rw [jsSplit_append '\n' _ _ (by decide), jsSplit_joinN _ (by simp) hgood]
    unfold parseAlerts
    rw [htrim, if_neg hAne, hlines]
    rw [if_neg (by simp)]
    simp only [List.headD_cons, List.tail_cons, headers_eval]
    exact parseRows_good (r0 :: rs') 1 h

lemma recOfObj_expectedAlert (i : Nat) (r : AlertData) :
    recOfObj (expectedAlert i r) = some (normalizeRec r) := rfl

lemma recsOf_expectedFrom : ∀ (rs : List AlertData) (i : Nat),
    recsOfAlerts (expectedFrom i rs) = some (rs.map normalizeRec) := by
  intro rs
  induction rs with
  | nil => intro i; rfl
  | cons r rs' ih =>
    intro i
    simp only [expectedFrom, recsOfAlerts, recOfObj_expectedAlert, ih (i + 1),
      List.map_cons]

/-! ## Claim C1: the round-trip law -/

/-- A record with a leading space in its location and no newline anywhere. -/
def rex1 : AlertData :=
  ⟨chars " a", chars "low", chars "d", chars "", chars "t", chars "pending", false⟩

/-- C1 counterexample: the round-trip law fails as stated.  `rex1` has no
newline in any text field, yet decoding the encoded document does not return
it: the leading space of its location is trimmed away by the decoder. -/
theorem c1_counterexample :
    noNewlineRec rex1 ∧
    recsOfAlerts (parseAlerts (encodeDoc [rex1])) ≠ some [rex1] := by decide

/-- C1 (amended): for records whose text fields contain no newline and no
double quote and are trim-invariant, decoding the encoded document yields one
alert object per record in order (with 1-based ids and the derived
`reportedBy` field), and projecting the alerts back onto the record schema
returns exactly the original records, with the status defaulted to "pending"
when empty. -/
theorem c1_roundTrip_amended (rs : List AlertData) (h : ∀ r ∈ rs, goodRec r) :
    parseAlerts (encodeDoc rs) = expectedFrom 1 rs ∧
    recsOfAlerts (parseAlerts (encodeDoc rs)) = some (rs.map normalizeRec) := by
  have hp := parse_encodeDoc rs h
  exact ⟨hp, by rw [hp, recsOf_expectedFrom]⟩

/-- A first well-behaved record for the round-trip witness. -/
def w1 : AlertData :=
  ⟨chars "Northern Valley", chars "high", chars "Smoke visible", chars "",
   chars "2024-01-15T10:00:00Z", chars "pending", false⟩

/-- A second well-behaved record, with a comma inside a field. -/
def w2 : AlertData :=
  ⟨chars "Oak Ridge", chars "low", chars "Haze, mild", chars "555-0100",
   chars "2024-01-16T11:00:00Z", chars "done", true⟩

/-- C1 witness: the amended round trip holds on a concrete two-record
sequence. -/
theorem c1_roundTrip_amended_witness :
    (∀ r ∈ [w1, w2], goodRec r) ∧
    recsOfAlerts (parseAlerts (encodeDoc [w1, w2])) = some ([w1, w2].map normalizeRec) :=
  ⟨by decide, (c1_roundTrip_amended [w1, w2] (by decide)).2⟩

/-! ## Claim C2: conflict handling of append -/

/-- The token used in the two-writer scenario. -/
def tokC : Str := chars "t"

/-- The first writer's record. -/
def rA : AlertData :=
  ⟨chars "A", chars "low", chars "dA", chars "", chars "t1", chars "pending", false⟩

/-- The second writer's record. -/
def rB : AlertData :=
  ⟨chars "B", chars "high", chars "dB", chars "", chars "t2", chars "pending", false⟩

/-- The initial store: the header-only document at version 0. -/
def s0 : Store := ⟨encodeDoc [], 0⟩

/-- The store after the first append: header plus `rA`'s row, version 1. -/
def s1 : Store := ⟨encodeDoc [rA], 1⟩

/-- C2 counterexample: two appends fetch the same initial state; the first
write succeeds, and the second call — writing against the store the first
call produced — fails with the conflict error instead of refetching,
retrying, and succeeding with both records.  `appendAlertToCSV` has no retry
loop: the conflict is surfaced on the first rejection. -/
theorem c2_counterexample :
    appendAlertToCSV tokC (some s0) (some s0) rA = .ok s1 ∧
    appendAlertToCSV tokC (some s0) (some s1) rB = .error conflictMsg := by decide

/-- C2 (amended): append performs a single attempt; whenever the store at
write time carries a version token different from the fetched one, the
conditional write is rejected and the conflict error is thrown straight to
the caller — no refetch, no retry, and the record is not persisted. -/
theorem c2_noRetry_amended (token c0 : Str) (sha0 : Nat) (st : Store) (a : AlertData)
    (htok : token ≠ []) (hsha : st.sha ≠ sha0) :
    appendAlertToCSV token (some ⟨c0, sha0⟩) (some st) a = .error conflictMsg := by
  simp [appendAlertToCSV, appendWithFetch, fetchResultOf, buildContent, putFile,
    htok, (show ¬ sha0 = st.sha from fun he => hsha he.symm)]

/-- C2 witness: the no-retry behaviour at the concrete two-writer scenario. -/
theorem c2_noRetry_amended_witness :
    tokC ≠ [] ∧ s1.sha ≠ s0.sha ∧
    appendAlertToCSV tokC (some s0) (some s1) rB = .error conflictMsg :=
  ⟨by decide, by decide,
   c2_noRetry_amended tokC (encodeDoc []) 0 s1 rB (by decide) (by decide)⟩

/-! ## Claim C3: the header line of appended documents -/

/-- The record appended to a non-existent document. -/
def rex3 : AlertData :=
  ⟨chars "NV", chars "high", chars "smoke", chars "", chars "t", chars "", false⟩

/-- C3 evaluation at the failing input: appending to a path whose document
does not exist (the GET resolves with a non-ok 404 response, which does not
throw) writes a document consisting of the record row alone — its first line
is not the header.  Only when the GET itself throws does the code create the
header. -/
theorem c3_missing_header_eval :
    appendAlertToCSV (chars "t") none none rex3 = .ok ⟨encodeRow rex3, 0⟩ ∧
    (jsSplit '\n' (encodeRow rex3)).headD [] ≠ chars headerStr ∧
    appendWithFetch (chars "t") .threw none rex3 =
      .ok ⟨chars headerStr ++ '\n' :: encodeRow rex3, 0⟩ := by decide

/-! ## Claim C4: the quoting discipline of encode -/

/-- The encoder the claim describes, following the spec's words: every field
wrapped in double quotes and every double quote inside any field escaped by
doubling. -/
def encodeRowSpec (a : AlertData) : Str :=
  joinC (([a.location, a.severity, a.description, a.contactInfo, a.timestamp,
           statusOr a.status, boolStr a.verified]).map (fun f => q (escQ f))) ++ ['\n']

/-- A record with a double quote inside its location. -/
def rex4 : AlertData :=
  ⟨chars "a\"b", chars "low", chars "d", chars "", chars "t", chars "p", false⟩

/-- C4 counterexample: the implementation does not escape double quotes in
every field — a quote inside the location is emitted verbatim, so the encoded
row differs from the all-fields-escaped encoding the claim describes. -/
theorem c4_counterexample :
    encodeRow rex4 ≠ encodeRowSpec rex4 ∧
    encodeRow rex4 = chars "\"a\"b\",\"low\",\"d\",\"\",\"t\",\"p\",\"false\"\n" := by decide

/-- C4 (amended): every field is wrapped in double quotes regardless of
content, fields are joined with commas and the line is newline-terminated,
but only the description field has its double quotes escaped by doubling —
the other fields are emitted verbatim inside their quotes. -/
theorem c4_encode_amended (a : AlertData) :
    encodeRow a =
      q a.location ++ ',' :: (q a.severity ++ ',' :: (q (escQ a.description) ++ ',' ::
        (q a.contactInfo ++ ',' :: (q a.timestamp ++ ',' :: (q (statusOr a.status) ++ ',' ::
          (q (boolStr a.verified) ++ ['\n'])))))) := by
  simp [encodeRow, rowBody, fieldVals, joinC, List.append_assoc]

/-! ## Claim C5: append never rewrites existing content -/

/-- C5: a successful append writes exactly the fetched content with the
single encoded row appended at the end, and (for a record without embedded
newlines) that row is one newline-terminated line.  No existing row is
updated or deleted. -/
theorem c5_append_frame (tok c : Str) (sha : Nat) (a : AlertData)
    (htok : tok ≠ []) (hnl : noNewlineRec a) :
    appendAlertToCSV tok (some ⟨c, sha⟩) (some ⟨c, sha⟩) a =
      .ok ⟨c ++ encodeRow a, sha + 1⟩ ∧
    encodeRow a = rowBody a ++ ['\n'] ∧ '\n' ∉ rowBody a := by
  refine ⟨?_, rfl, rowBody_no_newline2 hnl⟩
  simp [appendAlertToCSV, appendWithFetch, fetchResultOf, buildContent, putFile, htok]

/-- The record used by the frame witness. -/
def w5 : AlertData :=
  ⟨chars "Pine Hill", chars "medium", chars "Ash falling", chars "",
   chars "2024-02-02T08:00:00Z", chars "pending", true⟩

/-- C5 witness: the frame property at a concrete store and record. -/
theorem c5_append_frame_witness :
    chars "t" ≠ [] ∧ noNewlineRec w5 ∧
    (appendAlertToCSV (chars "t") (some ⟨chars "H\n", 3⟩) (some ⟨chars "H\n", 3⟩) w5 =
       .ok ⟨chars "H\n" ++ encodeRow w5, 3 + 1⟩ ∧
     encodeRow w5 = rowBody w5 ++ ['\n'] ∧ '\n' ∉ rowBody w5) :=
  ⟨by decide, by decide,
   c5_append_frame (chars "t") (chars "H\n") 3 w5 (by decide) (by decide)⟩

/-! ## Claim C6: lines with a mismatched field count -/

/-- A document with one well-formed data line and one line with only two
fields. -/
def doc6 : Str := chars "Location,Severity,Description,Contact Info,Timestamp,Status,Verified\n\"a\",\"low\",\"d\",\"\",\"t\",\"pending\",\"false\"\n\"x\",\"y\"\n"

/-- A document whose mismatched line sits between two well-formed lines. -/
def doc6b : Str := chars "Location,Severity,Description,Contact Info,Timestamp,Status,Verified\n\"a\",\"low\",\"d\",\"\",\"t\",\"pending\",\"false\"\n\"x\",\"y\"\n\"b\",\"low\",\"d2\",\"\",\"t\",\"done\",\"true\"\n"

/-- C6 counterexample: the mismatched line is discarded and decoding
continues, but no warning is reported: decoding the mixed document emits no
console message at all, against the claim's one skipped-line warning. -/
theorem c6_counterexample :
    (fetchAlertsFromCSV (.ok doc6)).2 = [] ∧ (parseAlerts doc6).length = 1 := by decide

/-- C6 (amended): decode silently discards every data line whose parsed field
count differs from the header's — no warning is emitted — and continues with
the remaining lines: the mixed document decodes to exactly the one
well-formed record, and a mismatched line between two well-formed lines
leaves both neighbours decoded (with the skipped line still consuming its row
number). -/
theorem c6_skip_amended :
    parseAlerts doc6 =
      [expectedAlert 1 ⟨chars "a", chars "low", chars "d", chars "", chars "t",
        chars "pending", false⟩] ∧
    (fetchAlertsFromCSV (.ok doc6)).2 = [] ∧
    (parseAlerts doc6b).map (fun o => objGet o (chars "id")) =
      [some (.nat 1), some (.nat 3)] := by decide

/-! ## Claim C7: list never raises -/

/-- C7: `fetchAlertsFromCSV` always returns a list — the non-ok (404)
response yields the empty list with no console output, and a thrown fetch is
caught and also yields the empty list. -/
theorem c7_list_total :
    (∀ o, ∃ l, (fetchAlertsFromCSV o).1 = Except.ok l) ∧
    fetchAlertsFromCSV .notOk = (.ok [], []) ∧
    (∀ m, (fetchAlertsFromCSV (.threw m)).1 = .ok []) := by
  refine ⟨fun o => ?_, rfl, fun m => rfl⟩
  cases o with
  | ok t => exact ⟨parseAlerts t, rfl⟩
  | notOk => exact ⟨[], rfl⟩
  | threw m => exact ⟨[], rfl⟩

/-! ## Claim C8: the empty-document law -/

/-- C8: decoding the empty text and decoding a header-only document (with or
without the trailing newline) both return the empty list. -/
theorem c8_empty_doc :
    fetchAlertsFromCSV (.ok (chars "")) = (.ok [], []) ∧
    fetchAlertsFromCSV (.ok (chars headerStr ++ ['\n'])) = (.ok [], []) ∧
    fetchAlertsFromCSV (.ok (chars headerStr)) = (.ok [], []) := by decide

/-! ## Claim C9: the missing-credential check -/

/-- C9: with an empty token, append fails with the not-configured message
whatever the network would have answered — the check precedes the fetch and
the write, and the message is distinct from the conflict and generic-failure
messages. -/
theorem c9_not_configured :
    (∀ fr atWrite a, appendWithFetch [] fr atWrite a = .error notConfiguredMsg) ∧
    (∀ fetched atWrite a, appendAlertToCSV [] fetched atWrite a = .error notConfiguredMsg) ∧
    notConfiguredMsg ≠ conflictMsg ∧
    notConfiguredMsg ≠ chars "Failed to save alert to CSV" :=
  ⟨fun _ _ _ => rfl, fun _ _ _ => rfl, by decide, by decide⟩

/-! ## Claim C10: the decoder's field post-processing -/

/-- A document whose first field value, as scanned, begins with a quote
followed by spaces. -/
def doc10 : Str := chars "Location,Severity,Description,Contact Info,Timestamp,Status,Verified\n\"\"\"  a\",\"low\",\"d\",\"\",\"t\",\"pending\",\"false\"\n"

/-- C10 counterexample: a decoded field value can begin with whitespace — the
trim happens before the quote stripping, so stripping the leading quote
exposes interior spaces the trim could not see. -/
theorem c10_counterexample :
    objGet ((parseAlerts doc10).headD []) (chars "location") = some (.str (chars "  a")) ∧
    (chars "  a").head? = some ' ' := by decide

/-- C10 (amended): after the quote-aware scan each field is trimmed, then one
leading and one trailing double quote are stripped, then doubled quotes
unescaped; a scanned value that begins or ends with a double quote is always
returned altered, while a value with no boundary quote and no doubled quote
is returned unchanged (so it keeps no surrounding whitespace, having already
been trimmed) — but quote stripping can expose whitespace, as the
counterexample shows. -/
theorem c10_postField_amended (v : Str) :
    ((v.head? = some '"' ∨ v.getLast? = some '"') → postField v ≠ v) ∧
    (v.head? ≠ some '"' → v.getLast? ≠ some '"' → hasAdjQ v = false → postField v = v) :=
  ⟨fun h => postField_ne_of_edge h, fun h1 h2 h3 => postField_of_plain h1 h2 h3⟩

/-- C10 witness: both parts of the amended post-processing law at concrete
values. -/
theorem c10_postField_amended_witness :
    ((chars "\"x").head? = some '"' ∨ (chars "\"x").getLast? = some '"') ∧
    postField (chars "\"x") ≠ chars "\"x" ∧
    ((chars "ab").head? ≠ some '"' ∧ (chars "ab").getLast? ≠ some '"' ∧
     hasAdjQ (chars "ab") = false ∧ postField (chars "ab") = chars "ab") :=
  ⟨by decide, (c10_postField_amended (chars "\"x")).1 (by decide),
   by decide, by decide, by decide,
   (c10_postField_amended (chars "ab")).2 (by decide) (by decide) (by decide)⟩

end AlertsCSV
